import Mathlib

/-!
Shallow embedding of the educational virtual machine toolchain:
`src/assembler.py` (instruction encoder and line-oriented assembler) and
`src/interpreter.py` (fetch-decode-execute virtual machine and memory-range
extraction).  Machine integers are modelled as `Nat` / `Int` with explicit
masks; byte strings are `List Nat` with every entry below 256; fallible
operations return `Except` or `Option`.
-/

set_option maxRecDepth 16000

namespace UVM

/-- Big-endian byte sequence to natural number, as `int.from_bytes(bs, big)`. -/
def bytesToNat (bs : List Nat) : Nat :=
  bs.foldl (fun acc b => acc * 256 + b) 0

/-- Natural number to `w` big-endian bytes, as `v.to_bytes(w, big)`
(the encoder only calls it with `v < 256 ^ w`). -/
def natToBytes : Nat → Nat → List Nat
  | 0, _ => []
  | w + 1, v => natToBytes w (v / 256) ++ [v % 256]

/-- Decimal digit characters to a natural number. -/
def digitsToNat (cs : List Char) : Nat :=
  cs.foldl (fun acc c => acc * 10 + (c.toNat - 48)) 0

/-- Split a character list at every occurrence of the separator, keeping
empty pieces, as Python `str.split(sep)` on a one-character separator. -/
def split_char (sep : Char) : List Char → List (List Char)
  | [] => [[]]
  | c :: rest =>
    let r := split_char sep rest
    if c = sep then [] :: r else (c :: r.headD []) :: r.tail

/-- Split a character list at every character satisfying the predicate,
keeping empty pieces. -/
def split_pred (p : Char → Bool) : List Char → List (List Char)
  | [] => [[]]
  | c :: rest =>
    let r := split_pred p rest
    if p c then [] :: r else (c :: r.headD []) :: r.tail

/-- Strip leading and trailing whitespace, as Python `str.strip()`. -/
def trim_chars (cs : List Char) : List Char :=
  ((cs.dropWhile Char.isWhitespace).reverse.dropWhile Char.isWhitespace).reverse

instance {ε α : Type} [DecidableEq ε] [DecidableEq α] : DecidableEq (Except ε α) :=
  fun x y =>
    match x, y with
    | .ok a, .ok b =>
      if h : a = b then isTrue (by rw [h]) else isFalse (fun hh => h (by injection hh))
    | .error a, .error b =>
      if h : a = b then isTrue (by rw [h]) else isFalse (fun hh => h (by injection hh))
    | .ok _, .error _ => isFalse (fun hh => Except.noConfusion hh)
    | .error _, .ok _ => isFalse (fun hh => Except.noConfusion hh)

/-- Opcode table, from `assembler.py` lines 8-13. -/
def OPCODES : List (String × Nat) :=
  [("LOAD_CONST", 57), ("READ_MEM", 28), ("WRITE_MEM", 61), ("LEQ", 19)]

/-- The distinct `ValueError` conditions raised by `encode_instruction`
(`assembler.py` lines 22-110); Python raises them all as `ValueError`,
distinguished only by message text. -/
inductive AsmError
  | unknownMnemonic
  | operandCountMismatch
  | operandOutOfRange
  | badOperandToken
deriving DecidableEq

/-- One JSON log entry produced by `encode_instruction`: the mnemonic plus
the named fields, in insertion order. -/
structure LogEntry where
  mnemonic : String
  fields : List (String × Int)
deriving DecidableEq

/-- Number of textual operands each mnemonic requires
(`assembler.py` lines 34, 54, 75, 95). -/
def operand_arity (m : String) : Nat :=
  if m = "LOAD_CONST" then 2
  else if m = "READ_MEM" then 2
  else if m = "WRITE_MEM" then 3
  else if m = "LEQ" then 3
  else 0

/-- Model of Python `int(token)` on a whitespace-free token: an optional
sign followed by one or more ASCII decimal digits.  (Python additionally
accepts underscore digit grouping and non-ASCII decimal digits; the
assembler claims do not depend on those corners.) -/
def parse_int_token (s : String) : Option Int :=
  match s.data with
  | [] => none
  | c :: rest =>
    if c = '-' then
      if !rest.isEmpty && rest.all Char.isDigit then
        some (-(digitsToNat rest : Int))
      else none
    else if c = '+' then
      if !rest.isEmpty && rest.all Char.isDigit then
        some ((digitsToNat rest : Int))
      else none
    else
      if (c :: rest).all Char.isDigit then
        some ((digitsToNat (c :: rest) : Int))
      else none

/-- Range checking and bit packing of `encode_instruction`
(`assembler.py` lines 29-110), after the operand tokens have been converted
to integers.  The Python code masks each already-range-checked value before
shifting; the checks guarantee the values are non-negative, so `Int.toNat`
is exact here. -/
def encode_operands (mnemonic : String) (vals : List Int) :
    Except AsmError (List Nat × LogEntry) :=
  if mnemonic = "LOAD_CONST" then
    match vals with
    | [B, C] =>
      if B < 0 ∨ B > 2 ^ 31 - 1 then .error .operandOutOfRange
      else if C < 0 ∨ C > 31 then .error .operandOutOfRange
      else
        let instr : Nat :=
          (57 &&& 0x3F) <<< 42 ||| (B.toNat &&& 0x7FFFFFFF) <<< 11 |||
            (C.toNat &&& 0x1F) <<< 6
        .ok (natToBytes 6 instr,
          ⟨"LOAD_CONST", [("A", 57), ("B", B), ("C", C)]⟩)
    | _ => .error .operandCountMismatch
  else if mnemonic = "READ_MEM" then
    match vals with
    | [B, C] =>
      if B < 0 ∨ B > 31 then .error .operandOutOfRange
      else if C < 0 ∨ C > 31 then .error .operandOutOfRange
      else
        let instr : Nat :=
          (28 &&& 0x3F) <<< 10 ||| (B.toNat &&& 0x1F) <<< 5 ||| (C.toNat &&& 0x1F)
        .ok (natToBytes 2 instr,
          ⟨"READ_MEM", [("A", 28), ("B", B), ("C", C)]⟩)
    | _ => .error .operandCountMismatch
  else if mnemonic = "WRITE_MEM" then
    match vals with
    | [B, C, D] =>
      if B < 0 ∨ B > 31 ∨ C < 0 ∨ C > 31 ∨ D < 0 ∨ D > 31 then
        .error .operandOutOfRange
      else
        let instr : Nat :=
          (61 &&& 0x3F) <<< 18 ||| (B.toNat &&& 0x1F) <<< 13 |||
            (C.toNat &&& 0x1F) <<< 8 ||| (D.toNat &&& 0x1F) <<< 3
        .ok (natToBytes 3 instr,
          ⟨"WRITE_MEM", [("A", 61), ("B", B), ("C", C), ("D", D)]⟩)
    | _ => .error .operandCountMismatch
  else if mnemonic = "LEQ" then
    match vals with
    | [B, C, D] =>
      if B < 0 ∨ B > 31 ∨ C < 0 ∨ C > 31 ∨ D < 0 ∨ D > 31 then
        .error .operandOutOfRange
      else
        let instr : Nat :=
          (19 &&& 0x3F) <<< 18 ||| (B.toNat &&& 0x1F) <<< 13 |||
            (C.toNat &&& 0x1F) <<< 8 ||| (D.toNat &&& 0x1F) <<< 3
        .ok (natToBytes 3 instr,
          ⟨"LEQ", [("A", 19), ("B", B), ("C", C), ("D", D)]⟩)
    | _ => .error .operandCountMismatch
  else .error .unknownMnemonic

/-- `encode_instruction` of `assembler.py` lines 22-110: mnemonic lookup,
operand-count check, integer conversion of the tokens (first bad token
fails, as `map(int, operands)` does), then range checks and packing. -/
def encode_instruction (mnemonic : String) (operands : List String) :
    Except AsmError (List Nat × LogEntry) :=
  if (OPCODES.lookup mnemonic).isNone then .error .unknownMnemonic
  else if operands.length ≠ operand_arity mnemonic then .error .operandCountMismatch
  else
    match operands.mapM parse_int_token with
    | none => .error .badOperandToken
    | some vals => encode_operands mnemonic vals

/-- Comment stripping and trimming of one source line
(`assembler.py` line 121): drop everything from the first `#`, then strip
surrounding whitespace. -/
def clean_line (line : String) : List Char :=
  trim_chars (line.data.takeWhile (fun c => c ≠ '#'))

/-- Tokenization of a cleaned, non-blank line (`assembler.py` line 125):
split on whitespace runs, which yields no empty tokens on a trimmed
non-blank line. -/
def tokenize (cs : List Char) : List (List Char) :=
  (split_pred Char.isWhitespace cs).filter (fun t => t ≠ [])

/-- The assembler loop of `assemble` (`assembler.py` lines 119-136),
carrying the 1-based number of the next line: blank and comment-only lines
are skipped; the first line whose encoding fails aborts the whole run with
that line number and no output (the Python code calls `sys.exit(1)` before
either output file is opened). -/
def assemble_from : Nat → List String → Except (Nat × AsmError) (List Nat × List (Nat × LogEntry))
  | _, [] => .ok ([], [])
  | n, line :: rest =>
    let content := clean_line line
    if content = [] then assemble_from (n + 1) rest
    else
      let tokens := tokenize content
      let mnemonic := String.mk ((tokens.headD []).map Char.toUpper)
      match encode_instruction mnemonic (tokens.tail.map String.mk) with
      | .error e => .error (n, e)
      | .ok (bytes, entry) =>
        match assemble_from (n + 1) rest with
        | .error err => .error err
        | .ok (bin, log) => .ok (bytes ++ bin, (n, entry) :: log)

/-- `assemble` on an in-memory list of source lines: either the complete
binary image together with the complete trace log, or the first failure
with its 1-based line number (and then no binary image and no trace at
all). -/
def assemble (lines : List String) :
    Except (Nat × AsmError) (List Nat × List (Nat × LogEntry)) :=
  assemble_from 1 lines

/-- The binary image of a program that assembles successfully. -/
def program_of (lines : List String) : List Nat :=
  match assemble lines with
  | .ok (bin, _) => bin
  | .error _ => []

/-! ## Interpreter (`src/interpreter.py`) -/

/-- Opcode sniffing from the first byte of an instruction
(`interpreter.py` line 34): the leading 6 bits. -/
def sniff_opcode (b : Nat) : Nat :=
  (b &&& 0xFC) >>> 2

/-- Field extraction for a 6-byte LOAD_CONST slice
(`interpreter.py` lines 40-43): returns (B, C). -/
def decode_load_const (bs : List Nat) : Nat × Nat :=
  let v := bytesToNat bs
  ((v >>> 11) &&& 0x7FFFFFFF, (v >>> 6) &&& 0x1F)

/-- Field extraction for a 2-byte READ_MEM slice
(`interpreter.py` lines 52-55): returns (B, C). -/
def decode_read_mem (bs : List Nat) : Nat × Nat :=
  let v := bytesToNat bs
  ((v >>> 5) &&& 0x1F, v &&& 0x1F)

/-- Field extraction for a 3-byte WRITE_MEM or LEQ slice
(`interpreter.py` lines 67-71 and 85-89): returns (B, C, D). -/
def decode_three_byte (bs : List Nat) : Nat × Nat × Nat :=
  let v := bytesToNat bs
  ((v >>> 13) &&& 0x1F, (v >>> 8) &&& 0x1F, (v >>> 3) &&& 0x1F)

/-- The `VirtualMachine` state (`interpreter.py` lines 14-19): 32 registers,
a fixed memory array, the loaded binary image, and the byte program
counter.  Register and memory cells are Python integers, modelled as
`Int`. -/
structure VirtualMachine where
  registers : List Int
  memory : List Int
  program : List Nat
  pc : Nat
deriving DecidableEq

/-- Fresh machine on a loaded image: 32 zero registers, 256 zero memory
cells, pc 0 (`interpreter.py` lines 14-19 and 126). -/
def initial_vm (program : List Nat) : VirtualMachine :=
  ⟨List.replicate 32 0, List.replicate 256 0, program, 0⟩

/-- The fatal `ValueError` conditions of `VirtualMachine.execute`. -/
inductive VMError
  | truncated (mnemonic : String)
  | memoryOutOfBounds (addr : Int)
  | unknownOpcode (a : Nat) (pc : Nat)
deriving DecidableEq

/-- Outcome of one iteration of the fetch-decode-execute loop. -/
inductive StepResult
  | halt
  | next (s : VirtualMachine)
  | fault (e : VMError)
deriving DecidableEq

/-- One iteration of the `while` loop of `VirtualMachine.execute`
(`interpreter.py` lines 26-100): halt when pc has reached the end of the
image, otherwise sniff the opcode from the leading 6 bits of the byte at
pc, check that the full instruction is present, decode the fields with the
same shifts and masks as the encoder, and apply the effect. -/
def execute_step (s : VirtualMachine) : StepResult :=
  if s.pc < s.program.length then
    let A := sniff_opcode (s.program.getD s.pc 0)
    if A = 57 then
      if s.pc + 6 > s.program.length then .fault (.truncated "LOAD_CONST")
      else
        let fields := decode_load_const ((s.program.drop s.pc).take 6)
        .next { s with registers := s.registers.set fields.2 (Int.ofNat fields.1),
                       pc := s.pc + 6 }
    else if A = 28 then
      if s.pc + 2 > s.program.length then .fault (.truncated "READ_MEM")
      else
        let fields := decode_read_mem ((s.program.drop s.pc).take 2)
        let addr := s.registers.getD fields.2 0
        if addr < 0 ∨ addr ≥ (s.memory.length : Int) then
          .fault (.memoryOutOfBounds addr)
        else
          .next { s with registers := s.registers.set fields.1 (s.memory.getD addr.toNat 0),
                         pc := s.pc + 2 }
    else if A = 61 then
      if s.pc + 3 > s.program.length then .fault (.truncated "WRITE_MEM")
      else
        let fields := decode_three_byte ((s.program.drop s.pc).take 3)
        let base := s.registers.getD fields.2.1 0
        let addr := base + (fields.2.2 : Int)
        let val := s.registers.getD fields.1 0
        if addr < 0 ∨ addr ≥ (s.memory.length : Int) then
          .fault (.memoryOutOfBounds addr)
        else
          .next { s with memory := s.memory.set addr.toNat val, pc := s.pc + 3 }
    else if A = 19 then
      if s.pc + 3 > s.program.length then .fault (.truncated "LEQ")
      else
        let fields := decode_three_byte ((s.program.drop s.pc).take 3)
        let v1 := s.registers.getD fields.1 0
        let v2 := s.registers.getD fields.2.2 0
        .next { s with registers := s.registers.set fields.2.1 (if v1 ≤ v2 then 1 else 0),
                       pc := s.pc + 3 }
    else .fault (.unknownOpcode A s.pc)
  else .halt

/-- Outcome of running the loop to completion (with a fuel bound, which the
termination theorem shows is never the binding constraint when the fuel is
at least the image length). -/
inductive RunResult
  | halted (s : VirtualMachine)
  | failed (e : VMError) (s : VirtualMachine)
  | outOfFuel (s : VirtualMachine)
deriving DecidableEq

/-- The machine state carried by a run outcome. -/
def RunResult.state : RunResult → VirtualMachine
  | .halted s => s
  | .failed _ s => s
  | .outOfFuel s => s

/-- Whether the fuel bound was hit. -/
def RunResult.isOutOfFuel : RunResult → Bool
  | .outOfFuel _ => true
  | _ => false

/-- The `while` loop of `VirtualMachine.execute` (`interpreter.py`
lines 26-100), fueled: a fatal error leaves the state exactly as it was
before the failing iteration. -/
def execute (fuel : Nat) (s : VirtualMachine) : RunResult :=
  match execute_step s with
  | .halt => .halted s
  | .fault e => .failed e s
  | .next s2 =>
    match fuel with
    | 0 => .outOfFuel s2
    | f + 1 => execute f s2

/-- Run a freshly assembled program from the all-zero initial state with
sufficient fuel. -/
def run_program (lines : List String) : RunResult :=
  let bin := program_of lines
  execute bin.length (initial_vm bin)

/-- `parse_memory_range` (`interpreter.py` lines 105-112): the request must
match `start:end` with both parts decimal digit strings, and must satisfy
`start ≤ end < memorySize`.  (Python `\d` also matches non-ASCII decimal
digits; the claims do not depend on that corner.) -/
def parse_memory_range (s : String) (memorySize : Nat) :
    Except String (Nat × Nat) :=
  match split_char ':' s.data with
  | [a, b] =>
    if (!a.isEmpty && a.all Char.isDigit) && (!b.isEmpty && b.all Char.isDigit) then
      let start := digitsToNat a
      let stop := digitsToNat b
      if stop ≥ memorySize || start > stop then .error "invalid memory range"
      else .ok (start, stop)
    else .error "memory range must have the form start:end"
  | _ => .error "memory range must have the form start:end"

/-- `VirtualMachine.get_memory_slice` (`interpreter.py` lines 102-103):
the Python slice `memory[start:stop+1]`. -/
def get_memory_slice (mem : List Int) (start stop : Nat) : List Int :=
  (mem.drop start).take (stop + 1 - start)

/-- The post-execution phase of `main` (`interpreter.py` lines 136-149):
parse the range request against the machine memory size; on failure the
process exits non-zero and no result document is written, on success the
result document holds the requested slice. -/
def memory_slice_result (mem : List Int) (rangeStr : String) :
    Except String (List Int) :=
  match parse_memory_range rangeStr mem.length with
  | .error e => .error e
  | .ok (start, stop) => .ok (get_memory_slice mem start stop)

/-- Every register and every memory cell holds an integer in
`[0, 2 ^ 31 - 1]`. -/
def good_state (s : VirtualMachine) : Prop :=
  (∀ x ∈ s.registers, 0 ≤ x ∧ x ≤ 2 ^ 31 - 1) ∧
    (∀ x ∈ s.memory, 0 ≤ x ∧ x ≤ 2 ^ 31 - 1)

/-- The error, if any, that one source line produces in the assembler loop
(mirrors one iteration of `assemble_from` on a non-blank line). -/
def line_error (line : String) : Option AsmError :=
  let content := clean_line line
  if content = [] then none
  else
    let tokens := tokenize content
    match encode_instruction (String.mk ((tokens.headD []).map Char.toUpper))
        (tokens.tail.map String.mk) with
    | .error e => some e
    | .ok _ => none

/-! ## Arithmetic facts about the byte and bit codecs -/

theorem shiftLeft_or_of_lt {a b n : Nat} (hb : b < 2 ^ n) :
    a <<< n ||| b = a * 2 ^ n + b := by
  rw [Nat.shiftLeft_eq, Nat.mul_comm a (2 ^ n)]
  exact (Nat.mul_add_lt_is_or hb a).symm

theorem and_mask_eq_mod (x k m : Nat) (hm : m = 2 ^ k - 1) : x &&& m = x % 2 ^ k := by
  subst hm
  exact Nat.and_pow_two_sub_one_eq_mod x k

theorem natToBytes_length (w v : Nat) : (natToBytes w v).length = w := by
  induction w generalizing v with
  | zero => rfl
  | succ w ih => simp [natToBytes, ih]

theorem bytesToNat_append_one (bs : List Nat) (b : Nat) :
    bytesToNat (bs ++ [b]) = bytesToNat bs * 256 + b := by
  simp [bytesToNat, List.foldl_append]

theorem bytesToNat_natToBytes (w v : Nat) (h : v < 2 ^ (8 * w)) :
    bytesToNat (natToBytes w v) = v := by
  induction w generalizing v with
  | zero =>
    have hv : v = 0 := by simpa using h
    simp [hv, natToBytes, bytesToNat]
  | succ w ih =>
    have hpow : (2 : Nat) ^ (8 * (w + 1)) = 2 ^ (8 * w) * 256 := by
      rw [Nat.mul_succ, pow_add]
      norm_num
    have hdiv : v / 256 < 2 ^ (8 * w) := by
      rw [Nat.div_lt_iff_lt_mul (by norm_num)]
      omega
    rw [natToBytes, bytesToNat_append_one, ih (v / 256) hdiv]
    omega

theorem natToBytes_headD (w v : Nat) :
    (natToBytes (w + 1) v).headD 0 = v / 256 ^ w % 256 := by
  induction w generalizing v with
  | zero => simp [natToBytes]
  | succ w ih =>
    have h2 : natToBytes (w + 1) (v / 256) ≠ [] := by
      intro hnil
      have := natToBytes_length (w + 1) (v / 256)
      rw [hnil] at this
      simp at this
    obtain ⟨c, cs, hc⟩ := List.exists_cons_of_ne_nil h2
    have hrec : natToBytes (w + 1 + 1) v = natToBytes (w + 1) (v / 256) ++ [v % 256] := rfl
    have hhead := ih (v / 256)
    rw [hc] at hhead hrec
    rw [hrec]
    simp only [List.cons_append, List.headD_cons] at hhead ⊢
    rw [hhead, Nat.div_div_eq_div_mul]
    have : 256 * 256 ^ w = 256 ^ (w + 1) := (pow_succ' 256 w).symm
    rw [this]

theorem sniff_opcode_of_lt : ∀ b, b < 256 → sniff_opcode b = b / 4 := by decide

/-! ## Round-trip of the instruction codec -/

theorem pack_load_const (B C : Nat) (hB : B < 2 ^ 31) (hC : C < 32) :
    (57 &&& 0x3F) <<< 42 ||| (B &&& 0x7FFFFFFF) <<< 11 ||| (C &&& 0x1F) <<< 6
      = 57 * 2 ^ 42 + B * 2 ^ 11 + C * 2 ^ 6 := by
  have h57 : (57 : Nat) &&& 0x3F = 57 := by decide
  have hBm : B &&& 0x7FFFFFFF = B := by
    rw [and_mask_eq_mod B 31 _ (by norm_num)]
    exact Nat.mod_eq_of_lt hB
  have hCm : C &&& 0x1F = C := by
    rw [and_mask_eq_mod C 5 _ (by norm_num)]
    exact Nat.mod_eq_of_lt hC
  rw [h57, hBm, hCm, Nat.or_assoc,
    shiftLeft_or_of_lt (n := 11) (by rw [Nat.shiftLeft_eq]; omega),
    Nat.shiftLeft_eq C 6,
    shiftLeft_or_of_lt (n := 42) (by omega)]
  ring

theorem encode_load_const_eq (B C : Nat) (hB : B < 2 ^ 31) (hC : C < 32) :
    encode_operands "LOAD_CONST" [(B : Int), (C : Int)] =
      .ok (natToBytes 6 (57 * 2 ^ 42 + B * 2 ^ 11 + C * 2 ^ 6),
        ⟨"LOAD_CONST", [("A", 57), ("B", (B : Int)), ("C", (C : Int))]⟩) := by
  have h1 : ¬((B : Int) < 0 ∨ (B : Int) > 2 ^ 31 - 1) := by push_cast; omega
  have h2 : ¬((C : Int) < 0 ∨ (C : Int) > 31) := by omega
  simp only [encode_operands, String.reduceEq, reduceIte]
  rw [if_neg h1, if_neg h2]
  rw [Int.toNat_natCast, Int.toNat_natCast, pack_load_const B C hB hC]

theorem round_trip_load_const (B C : Nat) (hB : B < 2 ^ 31) (hC : C < 32) :
    ∃ bs entry,
      encode_operands "LOAD_CONST" [(B : Int), (C : Int)] = .ok (bs, entry) ∧
      bs.length = 6 ∧ sniff_opcode (bs.headD 0) = 57 ∧ decode_load_const bs = (B, C) := by
  refine ⟨_, _, encode_load_const_eq B C hB hC, natToBytes_length _ _, ?_, ?_⟩
  · have h := natToBytes_headD 5 (57 * 2 ^ 42 + B * 2 ^ 11 + C * 2 ^ 6)
    rw [show (5 : Nat) + 1 = 6 from rfl] at h
    rw [h, sniff_opcode_of_lt _ (Nat.mod_lt _ (by norm_num))]
    omega
  · simp only [decode_load_const]
    rw [bytesToNat_natToBytes 6 _ (by norm_num; omega)]
    rw [Nat.shiftRight_eq_div_pow, Nat.shiftRight_eq_div_pow,
      and_mask_eq_mod _ 31 _ (by norm_num), and_mask_eq_mod _ 5 _ (by norm_num)]
    simp only [Prod.mk.injEq]
    constructor <;> omega


theorem pack_read_mem (B C : Nat) (hB : B < 32) (hC : C < 32) :
    (28 &&& 0x3F) <<< 10 ||| (B &&& 0x1F) <<< 5 ||| (C &&& 0x1F)
      = 28 * 2 ^ 10 + B * 2 ^ 5 + C := by
  have h28 : (28 : Nat) &&& 0x3F = 28 := by decide
  have hBm : B &&& 0x1F = B := by
    rw [and_mask_eq_mod B 5 _ (by norm_num)]
    exact Nat.mod_eq_of_lt hB
  have hCm : C &&& 0x1F = C := by
    rw [and_mask_eq_mod C 5 _ (by norm_num)]
    exact Nat.mod_eq_of_lt hC
  rw [h28, hBm, hCm, Nat.or_assoc,
    shiftLeft_or_of_lt (n := 5) (by omega),
    shiftLeft_or_of_lt (n := 10) (by omega)]
  ring

theorem encode_read_mem_eq (B C : Nat) (hB : B < 32) (hC : C < 32) :
    encode_operands "READ_MEM" [(B : Int), (C : Int)] =
      .ok (natToBytes 2 (28 * 2 ^ 10 + B * 2 ^ 5 + C),
        ⟨"READ_MEM", [("A", 28), ("B", (B : Int)), ("C", (C : Int))]⟩) := by
  have h1 : ¬((B : Int) < 0 ∨ (B : Int) > 31) := by omega
  have h2 : ¬((C : Int) < 0 ∨ (C : Int) > 31) := by omega
  simp only [encode_operands, String.reduceEq, reduceIte]
  rw [if_neg h1, if_neg h2]
  rw [Int.toNat_natCast, Int.toNat_natCast, pack_read_mem B C hB hC]

theorem round_trip_read_mem (B C : Nat) (hB : B < 32) (hC : C < 32) :
    ∃ bs entry,
      encode_operands "READ_MEM" [(B : Int), (C : Int)] = .ok (bs, entry) ∧
      bs.length = 2 ∧ sniff_opcode (bs.headD 0) = 28 ∧ decode_read_mem bs = (B, C) := by
  refine ⟨_, _, encode_read_mem_eq B C hB hC, natToBytes_length _ _, ?_, ?_⟩
  · have h := natToBytes_headD 1 (28 * 2 ^ 10 + B * 2 ^ 5 + C)
    rw [show (1 : Nat) + 1 = 2 from rfl] at h
    rw [h, sniff_opcode_of_lt _ (Nat.mod_lt _ (by norm_num))]
    omega
  · simp only [decode_read_mem]
    rw [bytesToNat_natToBytes 2 _ (by norm_num; omega)]
    rw [Nat.shiftRight_eq_div_pow,
      and_mask_eq_mod _ 5 _ (by norm_num), and_mask_eq_mod _ 5 _ (by norm_num)]
    simp only [Prod.mk.injEq]
    constructor <;> omega

theorem pack_three_byte (A B C D : Nat) (hA : A < 64) (hB : B < 32) (hC : C < 32)
    (hD : D < 32) :
    (A &&& 0x3F) <<< 18 ||| (B &&& 0x1F) <<< 13 ||| (C &&& 0x1F) <<< 8 ||| (D &&& 0x1F) <<< 3
      = A * 2 ^ 18 + B * 2 ^ 13 + C * 2 ^ 8 + D * 2 ^ 3 := by
  have hAm : A &&& 0x3F = A := by
    rw [and_mask_eq_mod A 6 _ (by norm_num)]
    exact Nat.mod_eq_of_lt hA
  have hBm : B &&& 0x1F = B := by
    rw [and_mask_eq_mod B 5 _ (by norm_num)]
    exact Nat.mod_eq_of_lt hB
  have hCm : C &&& 0x1F = C := by
    rw [and_mask_eq_mod C 5 _ (by norm_num)]
    exact Nat.mod_eq_of_lt hC
  have hDm : D &&& 0x1F = D := by
    rw [and_mask_eq_mod D 5 _ (by norm_num)]
    exact Nat.mod_eq_of_lt hD
  rw [hAm, hBm, hCm, hDm, Nat.or_assoc, Nat.or_assoc,
    shiftLeft_or_of_lt (n := 8) (by rw [Nat.shiftLeft_eq]; omega),
    Nat.shiftLeft_eq D 3,
    shiftLeft_or_of_lt (n := 13) (by omega),
    shiftLeft_or_of_lt (n := 18) (by omega)]
  ring

theorem encode_write_mem_eq (B C D : Nat) (hB : B < 32) (hC : C < 32) (hD : D < 32) :
    encode_operands "WRITE_MEM" [(B : Int), (C : Int), (D : Int)] =
      .ok (natToBytes 3 (61 * 2 ^ 18 + B * 2 ^ 13 + C * 2 ^ 8 + D * 2 ^ 3),
        ⟨"WRITE_MEM", [("A", 61), ("B", (B : Int)), ("C", (C : Int)), ("D", (D : Int))]⟩) := by
  have h1 : ¬((B : Int) < 0 ∨ (B : Int) > 31 ∨ (C : Int) < 0 ∨ (C : Int) > 31 ∨
      (D : Int) < 0 ∨ (D : Int) > 31) := by omega
  simp only [encode_operands, String.reduceEq, reduceIte]
  rw [if_neg h1]
  rw [Int.toNat_natCast, Int.toNat_natCast, Int.toNat_natCast,
    pack_three_byte 61 B C D (by norm_num) hB hC hD]

theorem round_trip_write_mem (B C D : Nat) (hB : B < 32) (hC : C < 32) (hD : D < 32) :
    ∃ bs entry,
      encode_operands "WRITE_MEM" [(B : Int), (C : Int), (D : Int)] = .ok (bs, entry) ∧
      bs.length = 3 ∧ sniff_opcode (bs.headD 0) = 61 ∧ decode_three_byte bs = (B, C, D) := by
  refine ⟨_, _, encode_write_mem_eq B C D hB hC hD, natToBytes_length _ _, ?_, ?_⟩
  · have h := natToBytes_headD 2 (61 * 2 ^ 18 + B * 2 ^ 13 + C * 2 ^ 8 + D * 2 ^ 3)
    rw [show (2 : Nat) + 1 = 3 from rfl] at h
    rw [h, sniff_opcode_of_lt _ (Nat.mod_lt _ (by norm_num))]
    omega
  · simp only [decode_three_byte]
    rw [bytesToNat_natToBytes 3 _ (by norm_num; omega)]
    rw [Nat.shiftRight_eq_div_pow, Nat.shiftRight_eq_div_pow, Nat.shiftRight_eq_div_pow,
      and_mask_eq_mod _ 5 _ (by norm_num), and_mask_eq_mod _ 5 _ (by norm_num),
      and_mask_eq_mod _ 5 _ (by norm_num)]
    simp only [Prod.mk.injEq]
    refine ⟨by omega, by omega, by omega⟩

theorem encode_leq_eq (B C D : Nat) (hB : B < 32) (hC : C < 32) (hD : D < 32) :
    encode_operands "LEQ" [(B : Int), (C : Int), (D : Int)] =
      .ok (natToBytes 3 (19 * 2 ^ 18 + B * 2 ^ 13 + C * 2 ^ 8 + D * 2 ^ 3),
        ⟨"LEQ", [("A", 19), ("B", (B : Int)), ("C", (C : Int)), ("D", (D : Int))]⟩) := by
  have h1 : ¬((B : Int) < 0 ∨ (B : Int) > 31 ∨ (C : Int) < 0 ∨ (C : Int) > 31 ∨
      (D : Int) < 0 ∨ (D : Int) > 31) := by omega
  simp only [encode_operands, String.reduceEq, reduceIte]
  rw [if_neg h1]
  rw [Int.toNat_natCast, Int.toNat_natCast, Int.toNat_natCast,
    pack_three_byte 19 B C D (by norm_num) hB hC hD]

theorem round_trip_leq (B C D : Nat) (hB : B < 32) (hC : C < 32) (hD : D < 32) :
    ∃ bs entry,
      encode_operands "LEQ" [(B : Int), (C : Int), (D : Int)] = .ok (bs, entry) ∧
      bs.length = 3 ∧ sniff_opcode (bs.headD 0) = 19 ∧ decode_three_byte bs = (B, C, D) := by
  refine ⟨_, _, encode_leq_eq B C D hB hC hD, natToBytes_length _ _, ?_, ?_⟩
  · have h := natToBytes_headD 2 (19 * 2 ^ 18 + B * 2 ^ 13 + C * 2 ^ 8 + D * 2 ^ 3)
    rw [show (2 : Nat) + 1 = 3 from rfl] at h
    rw [h, sniff_opcode_of_lt _ (Nat.mod_lt _ (by norm_num))]
    omega
  · simp only [decode_three_byte]
    rw [bytesToNat_natToBytes 3 _ (by norm_num; omega)]
    rw [Nat.shiftRight_eq_div_pow, Nat.shiftRight_eq_div_pow, Nat.shiftRight_eq_div_pow,
      and_mask_eq_mod _ 5 _ (by norm_num), and_mask_eq_mod _ 5 _ (by norm_num),
      and_mask_eq_mod _ 5 _ (by norm_num)]
    simp only [Prod.mk.injEq]
    refine ⟨by omega, by omega, by omega⟩

/-- C1: For every opcode in the closed set and every operand tuple whose
values fit the declared field widths, the assembler encoder succeeds and the
interpreter field extraction (same shifts and masks) applied to the encoded
bytes returns exactly the original operand tuple; the sniffed leading 6 bits
equal the opcode code and the byte string has the declared width. -/
theorem C1_codec_round_trip :
    (∀ B C : Nat, B ≤ 2 ^ 31 - 1 → C ≤ 31 →
      ∃ bs entry, encode_operands "LOAD_CONST" [(B : Int), (C : Int)] = .ok (bs, entry) ∧
        bs.length = 6 ∧ sniff_opcode (bs.headD 0) = 57 ∧ decode_load_const bs = (B, C)) ∧
    (∀ B C : Nat, B ≤ 31 → C ≤ 31 →
      ∃ bs entry, encode_operands "READ_MEM" [(B : Int), (C : Int)] = .ok (bs, entry) ∧
        bs.length = 2 ∧ sniff_opcode (bs.headD 0) = 28 ∧ decode_read_mem bs = (B, C)) ∧
    (∀ B C D : Nat, B ≤ 31 → C ≤ 31 → D ≤ 31 →
      ∃ bs entry, encode_operands "WRITE_MEM" [(B : Int), (C : Int), (D : Int)] = .ok (bs, entry) ∧
        bs.length = 3 ∧ sniff_opcode (bs.headD 0) = 61 ∧ decode_three_byte bs = (B, C, D)) ∧
    (∀ B C D : Nat, B ≤ 31 → C ≤ 31 → D ≤ 31 →
      ∃ bs entry, encode_operands "LEQ" [(B : Int), (C : Int), (D : Int)] = .ok (bs, entry) ∧
        bs.length = 3 ∧ sniff_opcode (bs.headD 0) = 19 ∧ decode_three_byte bs = (B, C, D)) :=
  ⟨fun B C hB hC => round_trip_load_const B C (by omega) (by omega),
   fun B C hB hC => round_trip_read_mem B C (by omega) (by omega),
   fun B C D hB hC hD => round_trip_write_mem B C D (by omega) (by omega) (by omega),
   fun B C D hB hC hD => round_trip_leq B C D (by omega) (by omega) (by omega)⟩

/-- Witness for C1 at LOAD_CONST with operands (10, 0). -/
theorem C1_codec_round_trip_witness :
    ∃ bs entry, encode_operands "LOAD_CONST" [((10 : Nat) : Int), ((0 : Nat) : Int)] = .ok (bs, entry) ∧
      bs.length = 6 ∧ sniff_opcode (bs.headD 0) = 57 ∧ decode_load_const bs = (10, 0) :=
  C1_codec_round_trip.1 10 0 (by norm_num) (by norm_num)

/-- C4: For every opcode, encoding succeeds exactly when every operand lies
in `[0, 2 ^ width - 1]` for its declared field width, and otherwise fails
with the operand-out-of-range error, producing no bytes; in particular
LOAD_CONST accepts `B = 2 ^ 31 - 1` and rejects `B = 2 ^ 31`. -/
theorem C4_encode_boundary :
    (∀ B C : Int,
      (0 ≤ B ∧ B ≤ 2 ^ 31 - 1 ∧ 0 ≤ C ∧ C ≤ 31 →
        ∃ bs entry, encode_operands "LOAD_CONST" [B, C] = .ok (bs, entry)) ∧
      (¬(0 ≤ B ∧ B ≤ 2 ^ 31 - 1 ∧ 0 ≤ C ∧ C ≤ 31) →
        encode_operands "LOAD_CONST" [B, C] = .error .operandOutOfRange)) ∧
    (∀ B C : Int,
      (0 ≤ B ∧ B ≤ 31 ∧ 0 ≤ C ∧ C ≤ 31 →
        ∃ bs entry, encode_operands "READ_MEM" [B, C] = .ok (bs, entry)) ∧
      (¬(0 ≤ B ∧ B ≤ 31 ∧ 0 ≤ C ∧ C ≤ 31) →
        encode_operands "READ_MEM" [B, C] = .error .operandOutOfRange)) ∧
    (∀ B C D : Int,
      (0 ≤ B ∧ B ≤ 31 ∧ 0 ≤ C ∧ C ≤ 31 ∧ 0 ≤ D ∧ D ≤ 31 →
        ∃ bs entry, encode_operands "WRITE_MEM" [B, C, D] = .ok (bs, entry)) ∧
      (¬(0 ≤ B ∧ B ≤ 31 ∧ 0 ≤ C ∧ C ≤ 31 ∧ 0 ≤ D ∧ D ≤ 31) →
        encode_operands "WRITE_MEM" [B, C, D] = .error .operandOutOfRange)) ∧
    (∀ B C D : Int,
      (0 ≤ B ∧ B ≤ 31 ∧ 0 ≤ C ∧ C ≤ 31 ∧ 0 ≤ D ∧ D ≤ 31 →
        ∃ bs entry, encode_operands "LEQ" [B, C, D] = .ok (bs, entry)) ∧
      (¬(0 ≤ B ∧ B ≤ 31 ∧ 0 ≤ C ∧ C ≤ 31 ∧ 0 ≤ D ∧ D ≤ 31) →
        encode_operands "LEQ" [B, C, D] = .error .operandOutOfRange)) ∧
    (∃ bs entry, encode_operands "LOAD_CONST" [2 ^ 31 - 1, 0] = .ok (bs, entry)) ∧
    encode_operands "LOAD_CONST" [2 ^ 31, 0] = .error .operandOutOfRange := by
  refine ⟨fun B C => ⟨fun h => ?_, fun h => ?_⟩, fun B C => ⟨fun h => ?_, fun h => ?_⟩,
    fun B C D => ⟨fun h => ?_, fun h => ?_⟩, fun B C D => ⟨fun h => ?_, fun h => ?_⟩, ?_, ?_⟩
  · simp only [encode_operands, String.reduceEq, reduceIte]
    rw [if_neg (by omega), if_neg (by omega)]
    exact ⟨_, _, rfl⟩
  · simp only [encode_operands, String.reduceEq, reduceIte]
    by_cases hB : B < 0 ∨ B > 2 ^ 31 - 1
    · rw [if_pos hB]
    · rw [if_neg hB, if_pos (by omega)]
  · simp only [encode_operands, String.reduceEq, reduceIte]
    rw [if_neg (by omega), if_neg (by omega)]
    exact ⟨_, _, rfl⟩
  · simp only [encode_operands, String.reduceEq, reduceIte]
    by_cases hB : B < 0 ∨ B > 31
    · rw [if_pos hB]
    · rw [if_neg hB, if_pos (by omega)]
  · simp only [encode_operands, String.reduceEq, reduceIte]
    rw [if_neg (by omega)]
    exact ⟨_, _, rfl⟩
  · simp only [encode_operands, String.reduceEq, reduceIte]
    rw [if_pos (by omega)]
  · simp only [encode_operands, String.reduceEq, reduceIte]
    rw [if_neg (by omega)]
    exact ⟨_, _, rfl⟩
  · simp only [encode_operands, String.reduceEq, reduceIte]
    rw [if_pos (by omega)]
  · simp only [encode_operands, String.reduceEq, reduceIte]
    rw [if_neg (by norm_num), if_neg (by norm_num)]
    exact ⟨_, _, rfl⟩
  · simp only [encode_operands, String.reduceEq, reduceIte]
    rw [if_pos (by norm_num)]

/-- Witness for C4: LOAD_CONST rejects `B = 2 ^ 31` and accepts the
boundary values. -/
theorem C4_encode_boundary_witness :
    encode_operands "LOAD_CONST" [(2 : Int) ^ 31, 35] = .error .operandOutOfRange :=
  (C4_encode_boundary.1 (2 ^ 31) 35).2 (by norm_num)


theorem leq_step_shape (s : VirtualMachine) (B C D : Nat)
    (hreg : s.registers.length = 32)
    (hpc : s.pc < s.program.length)
    (hA : sniff_opcode (s.program.getD s.pc 0) = 19)
    (hw : s.pc + 3 ≤ s.program.length)
    (hdec : decode_three_byte ((s.program.drop s.pc).take 3) = (B, C, D)) :
    ∃ s', execute_step s = .next s' ∧ s'.pc = s.pc + 3 ∧ s'.memory = s.memory ∧
      s'.program = s.program ∧
      s'.registers =
        s.registers.set C (if s.registers.getD B 0 ≤ s.registers.getD D 0 then 1 else 0) ∧
      s'.registers.getD C 0 =
        (if s.registers.getD B 0 ≤ s.registers.getD D 0 then 1 else 0) ∧
      ∀ j, j ≠ C → s'.registers.getD j 0 = s.registers.getD j 0 := by
  have hC : C < 32 := by
    have h1 := congrArg (fun t => t.2.1) hdec
    simp only [decode_three_byte] at h1
    rw [← h1]
    simpa using Nat.and_lt_two_pow (bytesToNat (List.take 3 (List.drop s.pc s.program)) >>> 8)
      (show (31 : Nat) < 2 ^ 5 by norm_num)
  have hstep : execute_step s = .next { s with
      registers := s.registers.set C
        (if s.registers.getD B 0 ≤ s.registers.getD D 0 then 1 else 0),
      pc := s.pc + 3 } := by
    unfold execute_step
    rw [if_pos hpc]
    simp only [hA, hdec]
    rw [if_neg (by decide), if_neg (by decide), if_neg (by decide), if_pos trivial,
      if_neg (by omega)]
  refine ⟨_, hstep, rfl, rfl, rfl, rfl, ?_, ?_⟩
  · simp only [List.getD_eq_getElem?_getD]
    rw [List.getElem?_set_self (by omega)]
    simp
  · intro j hj
    simp only [List.getD_eq_getElem?_getD]
    rw [List.getElem?_set_ne (Ne.symm hj)]


theorem write_mem_oob_step (s : VirtualMachine) (B C D : Nat)
    (hpc : s.pc < s.program.length)
    (hA : sniff_opcode (s.program.getD s.pc 0) = 61)
    (hw : s.pc + 3 ≤ s.program.length)
    (hdec : decode_three_byte ((s.program.drop s.pc).take 3) = (B, C, D))
    (hoob : s.registers.getD C 0 + (D : Int) < 0 ∨
      s.registers.getD C 0 + (D : Int) ≥ (s.memory.length : Int)) :
    execute_step s = .fault (.memoryOutOfBounds (s.registers.getD C 0 + (D : Int))) ∧
    ∀ fuel, execute fuel s =
      .failed (.memoryOutOfBounds (s.registers.getD C 0 + (D : Int))) s := by
  have hstep : execute_step s =
      .fault (.memoryOutOfBounds (s.registers.getD C 0 + (D : Int))) := by
    unfold execute_step
    rw [if_pos hpc]
    simp only [hA, hdec]
    rw [if_neg (by decide), if_neg (by decide), if_pos trivial,
      if_neg (by omega), if_pos hoob]
  refine ⟨hstep, fun fuel => ?_⟩
  unfold execute
  rw [hstep]

theorem truncated_fault (s : VirtualMachine) (A w : Nat) (m : String)
    (hpc : s.pc < s.program.length)
    (hA : sniff_opcode (s.program.getD s.pc 0) = A)
    (hcase : (A = 57 ∧ w = 6 ∧ m = "LOAD_CONST") ∨ (A = 28 ∧ w = 2 ∧ m = "READ_MEM") ∨
      (A = 61 ∧ w = 3 ∧ m = "WRITE_MEM") ∨ (A = 19 ∧ w = 3 ∧ m = "LEQ"))
    (htr : s.pc + w > s.program.length) :
    execute_step s = .fault (.truncated m) ∧
    ∀ fuel, execute fuel s = .failed (.truncated m) s := by
  have hstep : execute_step s = .fault (.truncated m) := by
    unfold execute_step
    rw [if_pos hpc]
    rcases hcase with ⟨h1, h2, h3⟩ | ⟨h1, h2, h3⟩ | ⟨h1, h2, h3⟩ | ⟨h1, h2, h3⟩ <;>
        subst h1 <;> subst h2 <;> subst h3 <;> simp only [hA]
    · rw [if_pos trivial, if_pos htr]
    · rw [if_neg (by decide), if_pos trivial, if_pos htr]
    · rw [if_neg (by decide), if_neg (by decide), if_pos trivial,
        if_pos htr]
    · rw [if_neg (by decide), if_neg (by decide), if_neg (by decide),
        if_pos trivial, if_pos htr]
  refine ⟨hstep, fun fuel => ?_⟩
  unfold execute
  rw [hstep]


/-- C2: A decoded LEQ(B, C, D) sets registers[C] to 1 when
registers[B] is at most registers[D] and to 0 otherwise, leaves every other
register, all memory, the program and nothing but pc+3 changed; and the
assembled program LOAD_CONST 10 0; LOAD_CONST 20 1; LEQ 0 2 1 run from the
all-zero state ends with registers[2] = 1. -/
theorem C2_leq_semantics :
    (∀ (s : VirtualMachine) (B C D : Nat), s.registers.length = 32 →
      s.pc < s.program.length →
      sniff_opcode (s.program.getD s.pc 0) = 19 →
      s.pc + 3 ≤ s.program.length →
      decode_three_byte ((s.program.drop s.pc).take 3) = (B, C, D) →
      ∃ s', execute_step s = .next s' ∧ s'.pc = s.pc + 3 ∧ s'.memory = s.memory ∧
        s'.program = s.program ∧
        s'.registers =
          s.registers.set C
            (if s.registers.getD B 0 ≤ s.registers.getD D 0 then 1 else 0) ∧
        s'.registers.getD C 0 =
          (if s.registers.getD B 0 ≤ s.registers.getD D 0 then 1 else 0) ∧
        ∀ j, j ≠ C → s'.registers.getD j 0 = s.registers.getD j 0) ∧
    (run_program ["LOAD_CONST 10 0", "LOAD_CONST 20 1", "LEQ 0 2 1"]).state.registers.getD 2 0
      = 1 :=
  ⟨leq_step_shape, by decide⟩

/-- Witness for C2: one LEQ 0 2 1 instruction on the fresh machine. -/
theorem C2_leq_semantics_witness :
    ∃ s', execute_step (initial_vm [76, 2, 8]) = .next s' ∧
      s'.pc = (initial_vm [76, 2, 8]).pc + 3 ∧
      s'.memory = (initial_vm [76, 2, 8]).memory ∧
      s'.program = (initial_vm [76, 2, 8]).program ∧
      s'.registers = (initial_vm [76, 2, 8]).registers.set 2
        (if (initial_vm [76, 2, 8]).registers.getD 0 0 ≤
            (initial_vm [76, 2, 8]).registers.getD 1 0 then 1 else 0) ∧
      s'.registers.getD 2 0 =
        (if (initial_vm [76, 2, 8]).registers.getD 0 0 ≤
            (initial_vm [76, 2, 8]).registers.getD 1 0 then 1 else 0) ∧
      ∀ j, j ≠ 2 → s'.registers.getD j 0 = (initial_vm [76, 2, 8]).registers.getD j 0 :=
  C2_leq_semantics.1 (initial_vm [76, 2, 8]) 0 2 1 rfl (by decide) (by decide) (by decide)
    (by decide)

/-- C3 counterexample: in the spec scenario LOAD_CONST 5 0; WRITE_MEM 0 0 3,
register 0 holds 5 when the write executes, so the write goes to address
5 + 3 = 8 and memory[3] stays 0, contradicting the claimed memory[3] = 5. -/
theorem C3_memory_scenario_counterexample :
    ¬ ((run_program ["LOAD_CONST 5 0", "WRITE_MEM 0 0 3"]).state.memory.getD 3 0 = 5) := by
  decide

/-- C3 amended: the assembled program LOAD_CONST 5 0; WRITE_MEM 0 0 3 run
from the all-zero state halts normally with memory[8] = 5 and memory[3] = 0,
per the WRITE_MEM rule with base = registers[0] = 5 and offset 3. -/
theorem C3_memory_scenario_amended :
    (run_program ["LOAD_CONST 5 0", "WRITE_MEM 0 0 3"]).state.memory.getD 8 0 = 5 ∧
    (run_program ["LOAD_CONST 5 0", "WRITE_MEM 0 0 3"]).state.memory.getD 3 0 = 0 ∧
    run_program ["LOAD_CONST 5 0", "WRITE_MEM 0 0 3"] =
      .halted (run_program ["LOAD_CONST 5 0", "WRITE_MEM 0 0 3"]).state := by
  decide

/-- C6: a WRITE_MEM whose computed address registers[C] + D is negative or
at least the memory size faults with the memory-out-of-bounds error, and the
run stops with the machine state (registers, memory, pc) exactly as before
the failing instruction. -/
theorem C6_write_mem_oob :
    ∀ (s : VirtualMachine) (B C D : Nat), s.pc < s.program.length →
      sniff_opcode (s.program.getD s.pc 0) = 61 →
      s.pc + 3 ≤ s.program.length →
      decode_three_byte ((s.program.drop s.pc).take 3) = (B, C, D) →
      (s.registers.getD C 0 + (D : Int) < 0 ∨
        s.registers.getD C 0 + (D : Int) ≥ (s.memory.length : Int)) →
      execute_step s = .fault (.memoryOutOfBounds (s.registers.getD C 0 + (D : Int))) ∧
      ∀ fuel, execute fuel s =
        .failed (.memoryOutOfBounds (s.registers.getD C 0 + (D : Int))) s :=
  write_mem_oob_step

/-- Witness for C6: WRITE_MEM 0 0 3 on a machine with empty memory. -/
theorem C6_write_mem_oob_witness :
    execute_step ⟨List.replicate 32 0, [], [244, 0, 24], 0⟩ =
      .fault (.memoryOutOfBounds
        ((⟨List.replicate 32 0, [], [244, 0, 24], 0⟩ : VirtualMachine).registers.getD 0 0 +
          ((3 : Nat) : Int))) ∧
    ∀ fuel, execute fuel ⟨List.replicate 32 0, [], [244, 0, 24], 0⟩ =
      .failed (.memoryOutOfBounds
        ((⟨List.replicate 32 0, [], [244, 0, 24], 0⟩ : VirtualMachine).registers.getD 0 0 +
          ((3 : Nat) : Int)))
        ⟨List.replicate 32 0, [], [244, 0, 24], 0⟩ :=
  C6_write_mem_oob ⟨List.replicate 32 0, [], [244, 0, 24], 0⟩ 0 0 3 (by decide) (by decide)
    (by decide) (by decide) (by decide)

/-- C7: when the byte at pc sniffs to a recognised opcode but fewer bytes
than its declared width remain, execution faults with the truncated error
and the machine state is exactly what it was before the fetch; in
particular a 4-byte image starting a LOAD_CONST fails that way. -/
theorem C7_truncated_instruction :
    (∀ (s : VirtualMachine) (A w : Nat) (m : String), s.pc < s.program.length →
      sniff_opcode (s.program.getD s.pc 0) = A →
      ((A = 57 ∧ w = 6 ∧ m = "LOAD_CONST") ∨ (A = 28 ∧ w = 2 ∧ m = "READ_MEM") ∨
        (A = 61 ∧ w = 3 ∧ m = "WRITE_MEM") ∨ (A = 19 ∧ w = 3 ∧ m = "LEQ")) →
      s.pc + w > s.program.length →
      execute_step s = .fault (.truncated m) ∧
      ∀ fuel, execute fuel s = .failed (.truncated m) s) ∧
    execute 10 (initial_vm [228, 0, 0, 0]) =
      .failed (.truncated "LOAD_CONST") (initial_vm [228, 0, 0, 0]) :=
  ⟨truncated_fault, by decide⟩

/-- Witness for C7: the 4-byte truncated LOAD_CONST image. -/
theorem C7_truncated_instruction_witness :
    execute_step (initial_vm [228, 0, 0, 0]) = .fault (.truncated "LOAD_CONST") ∧
    ∀ fuel, execute fuel (initial_vm [228, 0, 0, 0]) =
      .failed (.truncated "LOAD_CONST") (initial_vm [228, 0, 0, 0]) :=
  C7_truncated_instruction.1 (initial_vm [228, 0, 0, 0]) 57 6 "LOAD_CONST" (by decide)
    (by decide) (by decide) (by decide)


theorem step_next_pc (s s' : VirtualMachine) (h : execute_step s = .next s') :
    s'.program = s.program ∧ s.pc < s.program.length ∧ s.pc + 2 ≤ s'.pc ∧
    (s'.pc = s.pc + 2 ∨ s'.pc = s.pc + 3 ∨ s'.pc = s.pc + 6) := by
  unfold execute_step at h
  by_cases hpc : s.pc < s.program.length
  · rw [if_pos hpc] at h
    by_cases h57 : sniff_opcode (s.program.getD s.pc 0) = 57
    · rw [if_pos h57] at h
      by_cases htr : s.pc + 6 > s.program.length
      · rw [if_pos htr] at h
        simp at h
      · rw [if_neg htr] at h
        injection h with hh
        subst hh
        exact ⟨rfl, hpc, by dsimp only; omega, by dsimp only; omega⟩
    · rw [if_neg h57] at h
      by_cases h28 : sniff_opcode (s.program.getD s.pc 0) = 28
      · rw [if_pos h28] at h
        by_cases htr : s.pc + 2 > s.program.length
        · rw [if_pos htr] at h
          simp at h
        · rw [if_neg htr] at h
          by_cases hoob : s.registers.getD
                (decode_read_mem ((s.program.drop s.pc).take 2)).2 0 < 0 ∨
              s.registers.getD (decode_read_mem ((s.program.drop s.pc).take 2)).2 0 ≥
                (s.memory.length : Int)
          · rw [if_pos hoob] at h
            simp at h
          · rw [if_neg hoob] at h
            injection h with hh
            subst hh
            exact ⟨rfl, hpc, by dsimp only; omega, by dsimp only; omega⟩
      · rw [if_neg h28] at h
        by_cases h61 : sniff_opcode (s.program.getD s.pc 0) = 61
        · rw [if_pos h61] at h
          by_cases htr : s.pc + 3 > s.program.length
          · rw [if_pos htr] at h
            simp at h
          · rw [if_neg htr] at h
            by_cases hoob : s.registers.getD
                  (decode_three_byte ((s.program.drop s.pc).take 3)).2.1 0 +
                    ((decode_three_byte ((s.program.drop s.pc).take 3)).2.2 : Int) < 0 ∨
                s.registers.getD (decode_three_byte ((s.program.drop s.pc).take 3)).2.1 0 +
                    ((decode_three_byte ((s.program.drop s.pc).take 3)).2.2 : Int) ≥
                  (s.memory.length : Int)
            · rw [if_pos hoob] at h
              simp at h
            · rw [if_neg hoob] at h
              injection h with hh
              subst hh
              exact ⟨rfl, hpc, by dsimp only; omega, by dsimp only; omega⟩
        · rw [if_neg h61] at h
          by_cases h19 : sniff_opcode (s.program.getD s.pc 0) = 19
          · rw [if_pos h19] at h
            by_cases htr : s.pc + 3 > s.program.length
            · rw [if_pos htr] at h
              simp at h
            · rw [if_neg htr] at h
              injection h with hh
              subst hh
              exact ⟨rfl, hpc, by dsimp only; omega, by dsimp only; omega⟩
          · rw [if_neg h19] at h
            simp at h
  · rw [if_neg hpc] at h
    simp at h

theorem execute_enough_fuel (fuel : Nat) :
    ∀ s : VirtualMachine, s.program.length ≤ s.pc + fuel →
      (execute fuel s).isOutOfFuel = false := by
  induction fuel with
  | zero =>
    intro s hs
    have hstep : execute_step s = .halt := by
      unfold execute_step
      rw [if_neg (by omega)]
    unfold execute
    rw [hstep]
    rfl
  | succ f ih =>
    intro s hs
    unfold execute
    cases hst : execute_step s with
    | halt => rfl
    | fault e => rfl
    | next s2 =>
      obtain ⟨hprog, hlt, hadv, _⟩ := step_next_pc s s2 hst
      show (execute f s2).isOutOfFuel = false
      apply ih
      rw [hprog]
      omega

/-- C8: every successful step advances pc by the executed instruction byte
width (2, 3 or 6, hence at least 2) and leaves the image unchanged, so a run
from the start of any image with fuel equal to the image byte length never
exhausts its fuel: execution halts or faults within finitely many steps. -/
theorem C8_termination :
    (∀ s s' : VirtualMachine, execute_step s = .next s' →
      s'.program = s.program ∧ s.pc < s.program.length ∧ s.pc + 2 ≤ s'.pc ∧
      (s'.pc = s.pc + 2 ∨ s'.pc = s.pc + 3 ∨ s'.pc = s.pc + 6)) ∧
    (∀ program : List Nat,
      (execute program.length (initial_vm program)).isOutOfFuel = false) :=
  ⟨step_next_pc, fun program =>
    execute_enough_fuel program.length (initial_vm program) (by simp [initial_vm])⟩

/-- Witness for C8: the single-LEQ image advances pc from 0 to 3. -/
theorem C8_termination_witness :
    (⟨(List.replicate 32 0).set 2 1, List.replicate 256 0, [76, 2, 8], 3⟩
        : VirtualMachine).program = (initial_vm [76, 2, 8]).program ∧
    (initial_vm [76, 2, 8]).pc < (initial_vm [76, 2, 8]).program.length ∧
    (initial_vm [76, 2, 8]).pc + 2 ≤
      (⟨(List.replicate 32 0).set 2 1, List.replicate 256 0, [76, 2, 8], 3⟩
        : VirtualMachine).pc ∧
    ((⟨(List.replicate 32 0).set 2 1, List.replicate 256 0, [76, 2, 8], 3⟩
        : VirtualMachine).pc = (initial_vm [76, 2, 8]).pc + 2 ∨
      (⟨(List.replicate 32 0).set 2 1, List.replicate 256 0, [76, 2, 8], 3⟩
        : VirtualMachine).pc = (initial_vm [76, 2, 8]).pc + 3 ∨
      (⟨(List.replicate 32 0).set 2 1, List.replicate 256 0, [76, 2, 8], 3⟩
        : VirtualMachine).pc = (initial_vm [76, 2, 8]).pc + 6) :=
  C8_termination.1 (initial_vm [76, 2, 8])
    ⟨(List.replicate 32 0).set 2 1, List.replicate 256 0, [76, 2, 8], 3⟩ (by decide)


theorem forall_mem_set {l : List Int} {P : Int → Prop} (h : ∀ x ∈ l, P x) {v : Int}
    (hv : P v) (i : Nat) : ∀ x ∈ l.set i v, P x := by
  intro x hx
  rcases List.mem_or_eq_of_mem_set hx with hmem | hEq
  · exact h x hmem
  · exact hEq ▸ hv

theorem forall_mem_getD {l : List Int} {P : Int → Prop} (h : ∀ x ∈ l, P x)
    (h0 : P 0) (i : Nat) : P (l.getD i 0) := by
  by_cases hi : i < l.length
  · rw [List.getD_eq_getElem?_getD, List.getElem?_eq_getElem hi]
    exact h _ (List.getElem_mem hi)
  · rw [List.getD_eq_getElem?_getD, List.getElem?_eq_none (by omega)]
    exact h0

theorem good_initial (program : List Nat) : good_state (initial_vm program) := by
  constructor <;> intro x hx <;> rw [List.eq_of_mem_replicate hx] <;> norm_num

theorem good_step (s s' : VirtualMachine) (hg : good_state s)
    (h : execute_step s = .next s') : good_state s' := by
  obtain ⟨hreg, hmem⟩ := hg
  unfold execute_step at h
  by_cases hpc : s.pc < s.program.length
  · rw [if_pos hpc] at h
    by_cases h57 : sniff_opcode (s.program.getD s.pc 0) = 57
    · rw [if_pos h57] at h
      by_cases htr : s.pc + 6 > s.program.length
      · rw [if_pos htr] at h
        simp at h
      · rw [if_neg htr] at h
        injection h with hh
        subst hh
        have hone : bytesToNat ((s.program.drop s.pc).take 6) >>> 11 &&& 0x7FFFFFFF
            ≤ 0x7FFFFFFF := Nat.and_le_right
        refine ⟨forall_mem_set hreg ⟨?_, ?_⟩ _, hmem⟩ <;>
          simp only [decode_load_const, Int.ofNat_eq_natCast] <;> omega
    · rw [if_neg h57] at h
      by_cases h28 : sniff_opcode (s.program.getD s.pc 0) = 28
      · rw [if_pos h28] at h
        by_cases htr : s.pc + 2 > s.program.length
        · rw [if_pos htr] at h
          simp at h
        · rw [if_neg htr] at h
          by_cases hoob : s.registers.getD
                (decode_read_mem ((s.program.drop s.pc).take 2)).2 0 < 0 ∨
              s.registers.getD (decode_read_mem ((s.program.drop s.pc).take 2)).2 0 ≥
                (s.memory.length : Int)
          · rw [if_pos hoob] at h
            simp at h
          · rw [if_neg hoob] at h
            injection h with hh
            subst hh
            exact ⟨forall_mem_set hreg
              (forall_mem_getD hmem (by norm_num) _) _, hmem⟩
      · rw [if_neg h28] at h
        by_cases h61 : sniff_opcode (s.program.getD s.pc 0) = 61
        · rw [if_pos h61] at h
          by_cases htr : s.pc + 3 > s.program.length
          · rw [if_pos htr] at h
            simp at h
          · rw [if_neg htr] at h
            by_cases hoob : s.registers.getD
                  (decode_three_byte ((s.program.drop s.pc).take 3)).2.1 0 +
                    ((decode_three_byte ((s.program.drop s.pc).take 3)).2.2 : Int) < 0 ∨
                s.registers.getD (decode_three_byte ((s.program.drop s.pc).take 3)).2.1 0 +
                    ((decode_three_byte ((s.program.drop s.pc).take 3)).2.2 : Int) ≥
                  (s.memory.length : Int)
            · rw [if_pos hoob] at h
              simp at h
            · rw [if_neg hoob] at h
              injection h with hh
              subst hh
              exact ⟨hreg, forall_mem_set hmem
                (forall_mem_getD hreg (by norm_num) _) _⟩
        · rw [if_neg h61] at h
          by_cases h19 : sniff_opcode (s.program.getD s.pc 0) = 19
          · rw [if_pos h19] at h
            by_cases htr : s.pc + 3 > s.program.length
            · rw [if_pos htr] at h
              simp at h
            · rw [if_neg htr] at h
              injection h with hh
              subst hh
              refine ⟨forall_mem_set hreg ?_ _, hmem⟩
              split <;> norm_num
          · rw [if_neg h19] at h
            simp at h
  · rw [if_neg hpc] at h
    simp at h

theorem good_run (fuel : Nat) : ∀ s, good_state s → good_state ((execute fuel s).state) := by
  induction fuel with
  | zero =>
    intro s hg
    unfold execute
    cases hst : execute_step s with
    | halt => exact hg
    | fault e => exact hg
    | next s2 => exact good_step s s2 hg hst
  | succ f ih =>
    intro s hg
    unfold execute
    cases hst : execute_step s with
    | halt => exact hg
    | fault e => exact hg
    | next s2 => exact ih s2 (good_step s s2 hg hst)

theorem fault_addr_nonneg (s : VirtualMachine) (a : Int) (hg : good_state s)
    (h : execute_step s = .fault (.memoryOutOfBounds a)) : 0 ≤ a := by
  obtain ⟨hreg, _⟩ := hg
  unfold execute_step at h
  by_cases hpc : s.pc < s.program.length
  · rw [if_pos hpc] at h
    by_cases h57 : sniff_opcode (s.program.getD s.pc 0) = 57
    · rw [if_pos h57] at h
      by_cases htr : s.pc + 6 > s.program.length
      · rw [if_pos htr] at h
        simp at h
      · rw [if_neg htr] at h
        simp at h
    · rw [if_neg h57] at h
      by_cases h28 : sniff_opcode (s.program.getD s.pc 0) = 28
      · rw [if_pos h28] at h
        by_cases htr : s.pc + 2 > s.program.length
        · rw [if_pos htr] at h
          simp at h
        · rw [if_neg htr] at h
          by_cases hoob : s.registers.getD
                (decode_read_mem ((s.program.drop s.pc).take 2)).2 0 < 0 ∨
              s.registers.getD (decode_read_mem ((s.program.drop s.pc).take 2)).2 0 ≥
                (s.memory.length : Int)
          · rw [if_pos hoob] at h
            simp only [StepResult.fault.injEq, VMError.memoryOutOfBounds.injEq] at h
            subst h
            exact (forall_mem_getD hreg (by norm_num) _).1
          · rw [if_neg hoob] at h
            simp at h
      · rw [if_neg h28] at h
        by_cases h61 : sniff_opcode (s.program.getD s.pc 0) = 61
        · rw [if_pos h61] at h
          by_cases htr : s.pc + 3 > s.program.length
          · rw [if_pos htr] at h
            simp at h
          · rw [if_neg htr] at h
            by_cases hoob : s.registers.getD
                  (decode_three_byte ((s.program.drop s.pc).take 3)).2.1 0 +
                    ((decode_three_byte ((s.program.drop s.pc).take 3)).2.2 : Int) < 0 ∨
                s.registers.getD (decode_three_byte ((s.program.drop s.pc).take 3)).2.1 0 +
                    ((decode_three_byte ((s.program.drop s.pc).take 3)).2.2 : Int) ≥
                  (s.memory.length : Int)
            · rw [if_pos hoob] at h
              simp only [StepResult.fault.injEq, VMError.memoryOutOfBounds.injEq] at h
              subst h
              have hb := (forall_mem_getD hreg (show (0 : Int) ≤ 0 ∧ (0 : Int) ≤ 2 ^ 31 - 1
                by norm_num) ((decode_three_byte ((s.program.drop s.pc).take 3)).2.1)).1
              omega
            · rw [if_neg hoob] at h
              simp at h
        · rw [if_neg h61] at h
          by_cases h19 : sniff_opcode (s.program.getD s.pc 0) = 19
          · rw [if_pos h19] at h
            by_cases htr : s.pc + 3 > s.program.length
            · rw [if_pos htr] at h
              simp at h
            · rw [if_neg htr] at h
              simp at h
          · rw [if_neg h19] at h
            simp at h
  · rw [if_neg hpc] at h
    simp at h


/-- C10: From the all-zero initial state every register and memory cell
always holds an integer in [0, 2 ^ 31 - 1]: the initial state satisfies the
invariant, every successful step preserves it, a whole run preserves it, and
under it any memory-out-of-bounds fault carries a non-negative address, so
the negative-address branches are unreachable from the initial state. -/
theorem C10_value_range_invariant :
    (∀ program : List Nat, good_state (initial_vm program)) ∧
    (∀ s s' : VirtualMachine, good_state s → execute_step s = .next s' → good_state s') ∧
    (∀ (fuel : Nat) (s : VirtualMachine), good_state s →
      good_state ((execute fuel s).state)) ∧
    (∀ (s : VirtualMachine) (a : Int), good_state s →
      execute_step s = .fault (.memoryOutOfBounds a) → 0 ≤ a) :=
  ⟨good_initial, fun s s' hg h => good_step s s' hg h,
    fun fuel s hg => good_run fuel s hg, fun s a hg h => fault_addr_nonneg s a hg h⟩

/-- Witness for C10: the state after one LEQ step still satisfies the
invariant. -/
theorem C10_value_range_invariant_witness :
    good_state ⟨(List.replicate 32 0).set 2 1, List.replicate 256 0, [76, 2, 8], 3⟩ :=
  C10_value_range_invariant.2.1 (initial_vm [76, 2, 8])
    ⟨(List.replicate 32 0).set 2 1, List.replicate 256 0, [76, 2, 8], 3⟩
    (good_initial [76, 2, 8]) (by decide)


theorem parse_range_ok_valid (str : String) (m start stop : Nat)
    (h : parse_memory_range str m = .ok (start, stop)) : start ≤ stop ∧ stop < m := by
  unfold parse_memory_range at h
  cases hsp : split_char ':' str.data with
  | nil =>
    rw [hsp] at h
    simp at h
  | cons a tl =>
    cases tl with
    | nil =>
      rw [hsp] at h
      simp at h
    | cons b tl2 =>
      cases tl2 with
      | cons c tl3 =>
        rw [hsp] at h
        simp at h
      | nil =>
        rw [hsp] at h
        dsimp only at h
        by_cases h1 : ((!a.isEmpty && a.all Char.isDigit) &&
            (!b.isEmpty && b.all Char.isDigit)) = true
        · rw [if_pos h1] at h
          by_cases h2 : (decide (digitsToNat b ≥ m) ||
              decide (digitsToNat a > digitsToNat b)) = true
          · rw [if_pos h2] at h
            simp at h
          · rw [if_neg h2] at h
            injection h with hh
            rw [Prod.mk.injEq] at hh
            obtain ⟨h3, h4⟩ := hh
            simp only [Bool.or_eq_true, decide_eq_true_eq, not_or] at h2
            omega
        · rw [if_neg h1] at h
          simp at h

/-- C9: Any range request the parser accepts satisfies
start at most end and end below the memory size; any request it rejects
aborts the post-execution phase with that error and no result document; in
particular the request string 5:2 with start above end is rejected before
any result is produced. -/
theorem C9_invalid_range_request :
    (∀ (str : String) (m start stop : Nat),
      parse_memory_range str m = .ok (start, stop) → start ≤ stop ∧ stop < m) ∧
    (∀ (mem : List Int) (str e : String),
      parse_memory_range str mem.length = .error e →
        memory_slice_result mem str = .error e) ∧
    parse_memory_range "5:2" 256 = .error "invalid memory range" ∧
    memory_slice_result (List.replicate 256 0) "5:2" = .error "invalid memory range" := by
  refine ⟨parse_range_ok_valid, ?_, by decide, by decide⟩
  intro mem str e h
  unfold memory_slice_result
  rw [h]

/-- Witness for C9: the request 0:5 against 256 cells parses to a valid
range. -/
theorem C9_invalid_range_request_witness : (0 : Nat) ≤ 5 ∧ (5 : Nat) < 256 :=
  C9_invalid_range_request.1 "0:5" 256 0 5 (by decide)


theorem assemble_from_first_error (lines : List String) :
    ∀ (k i : Nat) (hi : i < lines.length) (e : AsmError),
      line_error (lines.get ⟨i, hi⟩) = some e →
      (∀ (j : Nat) (hj : j < lines.length), j < i → line_error (lines.get ⟨j, hj⟩) = none) →
      assemble_from k lines = .error (k + i, e) := by
  induction lines with
  | nil =>
    intro k i hi
    simp at hi
  | cons line rest ih =>
    intro k i hi e he hprev
    unfold assemble_from
    dsimp only
    cases i with
    | zero =>
      have hget : (line :: rest).get ⟨0, hi⟩ = line := rfl
      rw [hget] at he
      unfold line_error at he
      dsimp only at he
      by_cases hb : clean_line line = []
      · rw [if_pos hb] at he
        simp at he
      · rw [if_neg hb] at he
        rw [if_neg hb]
        cases henc : encode_instruction
            (String.mk (((tokenize (clean_line line)).headD []).map Char.toUpper))
            ((tokenize (clean_line line)).tail.map String.mk) with
        | error e2 =>
          rw [henc] at he
          dsimp only at he
          injection he with he2
          subst he2
          rfl
        | ok pr =>
          rw [henc] at he
          simp at he
    | succ i2 =>
      have h0 : line_error line = none := hprev 0 (by simp) (by omega)
      have hi2 : i2 < rest.length := by
        simpa using hi
      have hprev2 : ∀ (j : Nat) (hj : j < rest.length), j < i2 →
          line_error (rest.get ⟨j, hj⟩) = none :=
        fun j hj hlt => hprev (j + 1) (by simpa using hj) (by omega)
      have hrec := ih (k + 1) i2 hi2 e he hprev2
      unfold line_error at h0
      dsimp only at h0
      by_cases hb : clean_line line = []
      · rw [if_pos hb]
        rw [show k + (i2 + 1) = k + 1 + i2 from by omega]
        exact hrec
      · rw [if_neg hb] at h0
        rw [if_neg hb]
        cases henc : encode_instruction
            (String.mk (((tokenize (clean_line line)).headD []).map Char.toUpper))
            ((tokenize (clean_line line)).tail.map String.mk) with
        | error e2 =>
          rw [henc] at h0
          simp at h0
        | ok pr =>
          rw [show k + (i2 + 1) = k + 1 + i2 from by omega]
          obtain ⟨bytes, entry⟩ := pr
          dsimp only
          rw [hrec]

theorem assemble_from_ok_no_error :
    ∀ (lines : List String) (k : Nat) (out : List Nat × List (Nat × LogEntry)),
      assemble_from k lines = .ok out → ∀ line ∈ lines, line_error line = none := by
  intro lines
  induction lines with
  | nil =>
    intro k out h line hl
    simp at hl
  | cons l rest ih =>
    intro k out h line hl
    unfold assemble_from at h
    dsimp only at h
    rcases List.mem_cons.mp hl with hEq | hmem
    · subst hEq
      unfold line_error
      dsimp only
      by_cases hb : clean_line line = []
      · rw [if_pos hb]
      · rw [if_neg hb] at h
        rw [if_neg hb]
        cases henc : encode_instruction
            (String.mk (((tokenize (clean_line line)).headD []).map Char.toUpper))
            ((tokenize (clean_line line)).tail.map String.mk) with
        | error e2 =>
          rw [henc] at h
          simp at h
        | ok pr =>
          rfl
    · by_cases hb : clean_line l = []
      · rw [if_pos hb] at h
        exact ih (k + 1) out h line hmem
      · rw [if_neg hb] at h
        cases henc : encode_instruction
            (String.mk (((tokenize (clean_line l)).headD []).map Char.toUpper))
            ((tokenize (clean_line l)).tail.map String.mk) with
        | error e2 =>
          rw [henc] at h
          simp at h
        | ok pr =>
          rw [henc] at h
          obtain ⟨bytes, entry⟩ := pr
          dsimp only at h
          cases hrec : assemble_from (k + 1) rest with
          | error err =>
            rw [hrec] at h
            simp at h
          | ok pr2 =>
            exact ih (k + 1) pr2 hrec line hmem

/-- C5: If some non-blank line of the input fails to encode (unknown
mnemonic, wrong operand count, bad operand token or operand out of range)
and every earlier line is blank or encodes, the assembler aborts with
exactly that first failing line reported by its 1-based number, producing
neither a binary image nor a trace; and whenever it succeeds, no line
fails. -/
theorem C5_assembler_fail_fast :
    (∀ (lines : List String) (i : Nat) (hi : i < lines.length) (e : AsmError),
      line_error (lines.get ⟨i, hi⟩) = some e →
      (∀ (j : Nat) (hj : j < lines.length), j < i →
        line_error (lines.get ⟨j, hj⟩) = none) →
      assemble lines = .error (i + 1, e)) ∧
    (∀ (lines : List String) (out : List Nat × List (Nat × LogEntry)),
      assemble lines = .ok out → ∀ line ∈ lines, line_error line = none) := by
  constructor
  · intro lines i hi e he hprev
    unfold assemble
    rw [show i + 1 = 1 + i from by omega]
    exact assemble_from_first_error lines 1 i hi e he hprev
  · intro lines out h
    exact assemble_from_ok_no_error lines 1 out h

/-- Witness for C5: the second line has an unknown mnemonic, so assembly
stops there reporting line 2 and yields no output. -/
theorem C5_assembler_fail_fast_witness :
    assemble ["LOAD_CONST 1 0", "BADOP 1"] = .error (2, .unknownMnemonic) :=
  C5_assembler_fail_fast.1 ["LOAD_CONST 1 0", "BADOP 1"] 1 (by norm_num) .unknownMnemonic
    ((by decide : line_error "BADOP 1" = some AsmError.unknownMnemonic))
    (fun j hj hlt => by
      have hj0 : j = 0 := by omega
      subst hj0
      exact (by decide : line_error "LOAD_CONST 1 0" = none))

end UVM
